import Mathlib

/-!
Shallow embedding of the EBSD reader of the moose phase_field module
(`EBSDReader.h`) together with the load/aggregation pipeline its interface
describes.  Coordinates are modelled as rationals and machine integers as
`Nat`.  Only three member bodies (`getPhaseNum`, `getFeatureID`,
`getGlobalID`) are inline in the header; the remaining member
implementations are modelled from the specification, as marked on each
definition.
-/

namespace EBSD

/-- Error taxonomy of the reader: configuration, format, lookup and range
errors. -/
inductive EBSDError where
  | configError
  | formatError
  | lookupError
  | rangeError
deriving DecidableEq, Repr

/-- One voxel record (`EBSDPointData`): phase number and feature id.
Modelled from the spec: `EBSDPointData` is declared in
`EBSDAccessFunctors.h`, which is not part of this tree; the orientation
angles and custom data columns play no role in any property below and are
omitted. -/
structure EBSDPointData where
  phase : Nat
  feature : Nat
deriving DecidableEq, Repr, Inhabited

/-- Per-grain average record (`EBSDAvgData`): the feature id (its `grain`
field), the grain's phase and the number of contributing voxels.  Modelled
from the spec: `EBSDAvgData` is declared in `EBSDAccessFunctors.h`, which is
not part of this tree; averaged orientation/custom columns are omitted. -/
structure EBSDAvgData where
  grain : Nat
  phase : Nat
  n : Nat
deriving DecidableEq, Repr, Inhabited

/-- A spatial query point. -/
structure Point where
  x : ℚ
  y : ℚ
  z : ℚ
deriving DecidableEq, Repr

/-- Header fields of an EBSD data file: per-axis voxel counts and extents. -/
structure EBSDHeader where
  nx : Nat
  ny : Nat
  nz : Nat
  minx : ℚ
  miny : ℚ
  minz : ℚ
  maxx : ℚ
  maxy : ℚ
  maxz : ℚ
deriving DecidableEq, Repr

/-- Reader state, mirroring the member fields of class `EBSDReader`:
`_feature_num`, `_data`, `_avg_data`, `_global_id_map` (an association list
standing for the `std::map`), `_global_id`, the axis counts `_nx/_ny/_nz`,
spacings `_dx/_dy/_dz`, origin `_minx/_miny/_minz` and extent
`_maxx/_maxy/_maxz`. -/
structure EBSDReader where
  feature_num : Nat
  data : List EBSDPointData
  avg_data : List EBSDAvgData
  global_id_map : List (Nat × Nat)
  global_id : List (List Nat)
  nx : Nat
  ny : Nat
  nz : Nat
  dx : ℚ
  dy : ℚ
  dz : ℚ
  minx : ℚ
  miny : ℚ
  minz : ℚ
  maxx : ℚ
  maxy : ℚ
  maxz : ℚ
deriving DecidableEq, Repr

/-- Distinct feature ids of a record list, in first-encountered order
(the aggregation assigns a dense global id to each feature id in the order
first encountered). -/
def distinctFeatures (recs : List EBSDPointData) : List Nat :=
  recs.foldl (fun acc r => if r.feature ∈ acc then acc else acc ++ [r.feature]) []

/-- Assign consecutive global ids to a list of feature ids, producing the
`_global_id_map` association list (a dense renumbering in order of
assignment). -/
def assignIds : Nat → List Nat → List (Nat × Nat)
  | _, [] => []
  | i, f :: fs => (f, i) :: assignIds (i + 1) fs

/-- Largest phase number occurring in a record list (`0` for an empty list). -/
def maxPhase (recs : List EBSDPointData) : Nat :=
  recs.foldl (fun m r => max m r.phase) 0

/-- The phase of the first record carrying feature id `f` (on a phase
conflict across voxels the first-seen phase wins). -/
def firstPhase (recs : List EBSDPointData) (f : Nat) : Nat :=
  match recs.find? (fun r => r.feature == f) with
  | some r => r.phase
  | none => 0

/-- Modelled from the spec: the aggregation pass of `readFile` (component
"Grain/Phase Aggregator"), whose implementation file is not part of this
source tree — per-feature average records in global-id order, keeping the
feature id (`grain`), the first-seen phase and the contributing voxel
count. -/
def buildAvgData (recs : List EBSDPointData) : List EBSDAvgData :=
  (distinctFeatures recs).map fun f =>
    { grain := f
      phase := firstPhase recs f
      n := recs.countP fun r => r.feature == f }

/-- Modelled from the spec: the aggregation pass of `readFile` — the
`_global_id` table buckets the global ids into per-phase local-id lists,
with one bucket for each phase number up to the maximum observed phase. -/
def buildGlobalId (recs : List EBSDPointData) : List (List Nat) :=
  (List.range (maxPhase recs + 1)).map fun p =>
    (List.range (distinctFeatures recs).length).filter fun g =>
      ((buildAvgData recs).getD g default).phase == p

/-- Modelled from the spec: grid-geometry derivation — spacing is
`(max - min) / count` per axis, with the degenerate-axis guard giving zero
spacing when `count ≤ 1`. -/
def spacing (mn mx : ℚ) (count : Nat) : ℚ :=
  if count ≤ 1 then 0 else (mx - mn) / count

/-- Modelled from the spec: the reader state after a successful load of
header `hd` and grid-ordered records `recs` (the loader and aggregator
implementation file is not part of this source tree). -/
def aggregate (hd : EBSDHeader) (recs : List EBSDPointData) : EBSDReader where
  feature_num := (distinctFeatures recs).length
  data := recs
  avg_data := buildAvgData recs
  global_id_map := assignIds 0 (distinctFeatures recs)
  global_id := buildGlobalId recs
  nx := hd.nx
  ny := hd.ny
  nz := hd.nz
  dx := spacing hd.minx hd.maxx hd.nx
  dy := spacing hd.miny hd.maxy hd.ny
  dz := spacing hd.minz hd.maxz hd.nz
  minx := hd.minx
  miny := hd.miny
  minz := hd.minz
  maxx := hd.maxx
  maxy := hd.maxy
  maxz := hd.maxz

/-- Modelled from the spec: `readFile` (declared in `EBSDReader.h`, body not
in this tree) fails with a configuration error on an invalid grid (a zero
axis count or inverted extents) and with a format error when the record
count disagrees with the declared voxel count `nx*ny*nz`; only on success is
a reader state produced, so no incomplete grid is ever published. -/
def readFile (hd : EBSDHeader) (recs : List EBSDPointData) :
    Except EBSDError EBSDReader :=
  if hd.nx = 0 ∨ hd.ny = 0 ∨ hd.nz = 0 ∨ hd.maxx < hd.minx ∨
      hd.maxy < hd.miny ∨ hd.maxz < hd.minz then
    .error .configError
  else if recs.length ≠ hd.nx * hd.ny * hd.nz then
    .error .formatError
  else
    .ok (aggregate hd recs)

/-- `getPhaseNum`, inline in `EBSDReader.h`: `return _global_id.size();`. -/
def getPhaseNum (s : EBSDReader) : Nat := s.global_id.length

/-- `getGrainNum()`: the total number of grains, the `_feature_num` member.
Modelled from the spec: the member body is not in this tree; the spec gives
the invariant that it equals the number of distinct feature ids. -/
def getGrainNum (s : EBSDReader) : Nat := s.feature_num

/-- `getGrainNum(phase)`: the number of grains in one phase.  Modelled from
the spec: the member body is not in this tree; the spec reads it as the
length of the phase's local-id list `_global_id[phase]`. -/
def getGrainNumPhase (s : EBSDReader) (phase : Nat) : Nat :=
  (s.global_id.getD phase []).length

/-- `getGlobalID`, inline in `EBSDReader.h`:
`return _global_id[phase][local_id];` — unchecked `operator[]` accesses,
modelled totally with `getD`. -/
def getGlobalID (s : EBSDReader) (phase local_id : Nat) : Nat :=
  (s.global_id.getD phase []).getD local_id 0

/-- `getFeatureID`, inline in `EBSDReader.h`:
`return _avg_data[_global_id[phase][local_id]].grain;`. -/
def getFeatureID (s : EBSDReader) (phase local_id : Nat) : Nat :=
  (s.avg_data.getD (getGlobalID s phase local_id) default).grain

/-- `getAvgData(i)`: the average data record of one grain.  Modelled from
the spec: the member body is not in this tree; the spec exposes average-data
lookup by global id, i.e. a read of `_avg_data[i]`. -/
def getAvgData (s : EBSDReader) (i : Nat) : EBSDAvgData :=
  s.avg_data.getD i default

/-- Clamp a raw (possibly negative) axis index into `[0, count-1]`. -/
def clampIdx (raw : Int) (count : Nat) : Nat :=
  (min (max raw 0) ((count : Int) - 1)).toNat

/-- Modelled from the spec: one axis of `indexFromPoint` — the raw index is
`⌊(coord - origin)/spacing⌋`; a raw index more than one voxel outside the
grid is a range error, otherwise it is clamped into `[0, count-1]` (this
absorbs boundary points exactly on a face). -/
def axisIndex (coord mn d : ℚ) (count : Nat) : Except EBSDError Nat :=
  if ⌊(coord - mn) / d⌋ < -1 ∨ (count : Int) < ⌊(coord - mn) / d⌋ then
    .error .rangeError
  else
    .ok (clampIdx ⌊(coord - mn) / d⌋ count)

/-- Modelled from the spec: the grid coordinates (i,j,k) of the voxel
containing a point — the per-axis part of `indexFromPoint`, whose body is
not in this tree. -/
def ijkFromPoint (s : EBSDReader) (p : Point) :
    Except EBSDError (Nat × Nat × Nat) := do
  let i ← axisIndex p.x s.minx s.dx s.nx
  let j ← axisIndex p.y s.miny s.dy s.ny
  let k ← axisIndex p.z s.minz s.dz s.nz
  pure (i, j, k)

/-- Modelled from the spec: `indexFromPoint` — the linear index into `_data`
of the voxel containing `p`, combined as `i + j*nx + k*nx*ny`. -/
def indexFromPoint (s : EBSDReader) (p : Point) : Except EBSDError Nat :=
  (ijkFromPoint s p).map fun ijk => ijk.1 + ijk.2.1 * s.nx + ijk.2.2 * s.nx * s.ny

/-- Voxel indices within one cell of `idx` along an axis of `count` cells. -/
def axisNeighbors (idx count : Nat) : List Nat :=
  (List.range count).filter fun i => decide (idx ≤ i + 1 ∧ i ≤ idx + 1)

/-- Modelled from the spec: the voxel neighborhood examined by the node
weight builder — the containing voxel plus its immediate neighbors along
each active axis (a degenerate axis contributes its single cell). -/
def neighborhoodIdx (s : EBSDReader) (i j k : Nat) : List Nat :=
  (axisNeighbors k s.nz).flatMap fun k' =>
    (axisNeighbors j s.ny).flatMap fun j' =>
      (axisNeighbors i s.nx).map fun i' => i' + j' * s.nx + k' * s.nx * s.ny

/-- Modelled from the spec: the feature ids of the voxels in the
neighborhood of cell (i,j,k). -/
def neighborhoodFeatures (s : EBSDReader) (i j k : Nat) : List Nat :=
  (neighborhoodIdx s i j k).map fun idx => (s.data.getD idx default).feature

/-- Modelled from the spec: the grain weight vector of one query point — one
entry per global grain id, each entry the fraction of neighborhood voxels
whose feature id maps to that grain. -/
def grainWeightsAt (s : EBSDReader) (i j k : Nat) : List ℚ :=
  (List.range s.feature_num).map fun gid =>
    (((neighborhoodFeatures s i j k).countP
        fun f => List.lookup f s.global_id_map == some gid : Nat) : ℚ)
      / (((neighborhoodFeatures s i j k).length : Nat) : ℚ)

/-- Modelled from the spec: phase weights are obtained by summing the grain
weights of the grains sharing a phase — one entry per phase bucket of
`_global_id`. -/
def phaseWeightsAt (s : EBSDReader) (gw : List ℚ) : List ℚ :=
  s.global_id.map fun bucket => (bucket.map fun g => gw.getD g 0).sum

/-- Modelled from the spec: `buildNodeWeightMaps` (declared in
`EBSDReader.h`, body not in this tree) — for each query node whose
containing voxel resolves, record the dense grain weight vector and the
dense phase weight vector under the node's id. -/
def buildNodeWeightMaps (s : EBSDReader) (nodes : List (Nat × Point)) :
    List (Nat × List ℚ) × List (Nat × List ℚ) :=
  (nodes.filterMap fun nd =>
      match ijkFromPoint s nd.2 with
      | .ok ijk => some (nd.1, grainWeightsAt s ijk.1 ijk.2.1 ijk.2.2)
      | .error _ => none,
   nodes.filterMap fun nd =>
      match ijkFromPoint s nd.2 with
      | .ok ijk => some (nd.1, phaseWeightsAt s (grainWeightsAt s ijk.1 ijk.2.1 ijk.2.2))
      | .error _ => none)

/-- `getNodeToGrainWeightMap`: the grain-weight half of the node weight
maps. -/
def getNodeToGrainWeightMap (s : EBSDReader) (nodes : List (Nat × Point)) :
    List (Nat × List ℚ) :=
  (buildNodeWeightMaps s nodes).1

/-- `getNodeToPhaseWeightMap`: the phase-weight half of the node weight
maps. -/
def getNodeToPhaseWeightMap (s : EBSDReader) (nodes : List (Nat × Point)) :
    List (Nat × List ℚ) :=
  (buildNodeWeightMaps s nodes).2

/-- A grain-count query issued against the result of a load attempt: after a
failed load the query fails with the load's error rather than returning
stale or default data. -/
def queryGrainNum (r : Except EBSDError EBSDReader) : Except EBSDError Nat :=
  r.map getGrainNum

/-- A 2x2x1 example grid header. -/
def hd0 : EBSDHeader where
  nx := 2
  ny := 2
  nz := 1
  minx := 0
  miny := 0
  minz := 0
  maxx := 2
  maxy := 2
  maxz := 0

/-- Example voxel records: feature ids 1,1,2,2 with phase numbering starting
at 1 (phases 1,1,2,2). -/
def recs0 : List EBSDPointData :=
  [⟨1, 1⟩, ⟨1, 1⟩, ⟨2, 2⟩, ⟨2, 2⟩]

/-- The loaded example state. -/
def s0 : EBSDReader := aggregate hd0 recs0

/-- Example voxel records forming a single grain: every voxel has feature id
7 and phase 1. -/
def recs1 : List EBSDPointData :=
  [⟨1, 7⟩, ⟨1, 7⟩, ⟨1, 7⟩, ⟨1, 7⟩]

/-- The loaded single-grain example state. -/
def s1 : EBSDReader := aggregate hd0 recs1

/-- An example query point inside the grid of `hd0`. -/
def p0 : Point where
  x := 1/2
  y := 1/2
  z := 0

/-- Example records for the count-mismatch scenario: only three records for
the 2x2x1 grid of `hd0`. -/
def recs2 : List EBSDPointData :=
  [⟨1, 1⟩, ⟨1, 1⟩, ⟨2, 2⟩]

lemma foldl_features_mem (recs : List EBSDPointData) (acc : List Nat) (f : Nat) :
    f ∈ recs.foldl (fun a r => if r.feature ∈ a then a else a ++ [r.feature]) acc ↔
      f ∈ acc ∨ ∃ r ∈ recs, r.feature = f := by
  induction recs generalizing acc with
  | nil => simp
  | cons r rs ih =>
    simp only [List.foldl_cons]
    by_cases h : r.feature ∈ acc
    · rw [if_pos h, ih]
      constructor
      · rintro (hf | hf)
        · exact Or.inl hf
        · exact Or.inr (by
            obtain ⟨r', hr', he⟩ := hf
            exact ⟨r', List.mem_cons_of_mem _ hr', he⟩)
      · rintro (hf | ⟨r', hr', he⟩)
        · exact Or.inl hf
        · rcases List.mem_cons.mp hr' with h1 | h1
          · exact Or.inl (by rw [← he, h1]; exact h)
          · exact Or.inr ⟨r', h1, he⟩
    · rw [if_neg h, ih]
      constructor
      · rintro (hf | ⟨r', hr', he⟩)
        · rcases List.mem_append.mp hf with h1 | h1
          · exact Or.inl h1
          · exact Or.inr ⟨r, List.mem_cons_self _ _, (List.mem_singleton.mp h1).symm⟩
        · exact Or.inr ⟨r', List.mem_cons_of_mem _ hr', he⟩
      · rintro (hf | ⟨r', hr', he⟩)
        · exact Or.inl (List.mem_append.mpr (Or.inl hf))
        · rcases List.mem_cons.mp hr' with h1 | h1
          · refine Or.inl (List.mem_append.mpr (Or.inr ?_))
            rw [h1] at he
            exact List.mem_singleton.mpr he.symm
          · exact Or.inr ⟨r', h1, he⟩

lemma mem_distinctFeatures (recs : List EBSDPointData) (f : Nat) :
    f ∈ distinctFeatures recs ↔ ∃ r ∈ recs, r.feature = f := by
  rw [distinctFeatures, foldl_features_mem]
  simp

lemma foldl_features_nodup (recs : List EBSDPointData) (acc : List Nat)
    (h : acc.Nodup) :
    (recs.foldl (fun a r => if r.feature ∈ a then a else a ++ [r.feature]) acc).Nodup := by
  induction recs generalizing acc with
  | nil => exact h
  | cons r rs ih =>
    simp only [List.foldl_cons]
    by_cases hm : r.feature ∈ acc
    · rw [if_pos hm]; exact ih _ h
    · rw [if_neg hm]
      exact ih _ (by simp [List.nodup_append, h, hm])

lemma distinctFeatures_nodup (recs : List EBSDPointData) :
    (distinctFeatures recs).Nodup :=
  foldl_features_nodup recs [] List.nodup_nil

lemma lookup_assignIds (l : List Nat) (hnd : l.Nodup) (s i : Nat)
    (hi : i < l.length) :
    List.lookup (l.get ⟨i, hi⟩) (assignIds s l) = some (s + i) := by
  induction l generalizing s i with
  | nil => simp at hi
  | cons a l ih =>
    cases i with
    | zero => simp [assignIds, List.lookup]
    | succ n =>
      have hn : n < l.length := by simpa using hi
      have ha : a ∉ l := (List.nodup_cons.mp hnd).1
      have hmem : l.get ⟨n, hn⟩ ∈ l := l.get_mem _ _
      have hne : (l.get ⟨n, hn⟩) ≠ a := fun he => ha (he ▸ hmem)
      have hget : ((a :: l).get ⟨n + 1, hi⟩) = l.get ⟨n, hn⟩ := rfl
      have hbeq : (l.get ⟨n, hn⟩ == a) = false := beq_eq_false_iff_ne.mpr hne
      rw [hget]
      simp only [assignIds, List.lookup, hbeq]
      rw [ih (List.nodup_cons.mp hnd).2 (s + 1) n hn]
      congr 1
      omega

lemma lookup_assignIds_of_mem (l : List Nat) (s : Nat) (f : Nat) (hf : f ∈ l) :
    ∃ g, List.lookup f (assignIds s l) = some g ∧ s ≤ g ∧ g < s + l.length := by
  induction l generalizing s with
  | nil => simp at hf
  | cons a l ih =>
    by_cases he : f = a
    · refine ⟨s, ?_, le_refl _, by simp⟩
      simp [assignIds, List.lookup, he]
    · rcases List.mem_cons.mp hf with h1 | h1
      · exact absurd h1 he
      · obtain ⟨g, hg1, hg2, hg3⟩ := ih (s + 1) h1
        refine ⟨g, ?_, by omega, by simp only [List.length_cons]; omega⟩
        have hbeq : (f == a) = false := beq_eq_false_iff_ne.mpr he
        simp only [assignIds, List.lookup, hbeq]
        exact hg1

lemma le_foldl_max (recs : List EBSDPointData) (a : Nat) :
    a ≤ recs.foldl (fun m r => max m r.phase) a := by
  induction recs generalizing a with
  | nil => simp
  | cons r rs ih => exact le_trans (le_max_left _ _) (ih (max a r.phase))

lemma phase_le_foldl_max (recs : List EBSDPointData) (a : Nat) (r : EBSDPointData)
    (hr : r ∈ recs) : r.phase ≤ recs.foldl (fun m r => max m r.phase) a := by
  induction recs generalizing a with
  | nil => simp at hr
  | cons q qs ih =>
    rcases List.mem_cons.mp hr with h | h
    · subst h
      exact le_trans (le_max_right a r.phase) (le_foldl_max qs _)
    · exact ih _ h

lemma foldl_max_attained (recs : List EBSDPointData) (a : Nat) :
    recs.foldl (fun m r => max m r.phase) a = a ∨
      ∃ r ∈ recs, recs.foldl (fun m r => max m r.phase) a = r.phase := by
  induction recs generalizing a with
  | nil => exact Or.inl rfl
  | cons q qs ih =>
    simp only [List.foldl_cons]
    rcases ih (max a q.phase) with h | ⟨r, hr, he⟩
    · rcases max_choice a q.phase with hm | hm
      · exact Or.inl (by rw [h, hm])
      · exact Or.inr ⟨q, List.mem_cons_self _ _, by rw [h, hm]⟩
    · exact Or.inr ⟨r, List.mem_cons_of_mem _ hr, he⟩

lemma firstPhase_spec (recs : List EBSDPointData) (f : Nat)
    (h : ∃ r ∈ recs, r.feature = f) :
    ∃ r ∈ recs, r.feature = f ∧ firstPhase recs f = r.phase := by
  obtain ⟨r0, hr0, he0⟩ := h
  have hsome : (recs.find? (fun r => r.feature == f)).isSome := by
    rw [List.find?_isSome]
    exact ⟨r0, hr0, by simp [he0]⟩
  obtain ⟨r, hr⟩ := Option.isSome_iff_exists.mp hsome
  refine ⟨r, List.mem_of_find?_eq_some hr, ?_, ?_⟩
  · simpa using List.find?_some hr
  · simp [firstPhase, hr]

lemma readFile_ok (hd : EBSDHeader) (recs : List EBSDPointData) (s : EBSDReader)
    (h : readFile hd recs = .ok s) :
    s = aggregate hd recs ∧ hd.nx ≠ 0 ∧ hd.ny ≠ 0 ∧ hd.nz ≠ 0 ∧
      hd.minx ≤ hd.maxx ∧ hd.miny ≤ hd.maxy ∧ hd.minz ≤ hd.maxz ∧
      recs.length = hd.nx * hd.ny * hd.nz := by
  rw [readFile] at h
  split at h
  · exact absurd h (by simp)
  · split at h
    · exact absurd h (by simp)
    · rename_i hcfg hcnt
      push_neg at hcfg
      obtain ⟨h1, h2, h3, h4, h5, h6⟩ := hcfg
      refine ⟨?_, h1, h2, h3, h4, h5, h6, by omega⟩
      exact (Except.ok.injEq _ _ ▸ h).symm

lemma getD_eq_get {α : Type} (l : List α) (i : Nat) (d : α) (h : i < l.length) :
    l.getD i d = l.get ⟨i, h⟩ := by
  simp [List.getD_eq_getElem?_getD, List.getElem?_eq_getElem h]

lemma getD_eq_default_of_le {α : Type} (l : List α) (i : Nat) (d : α)
    (h : l.length ≤ i) : l.getD i d = d := by
  simp [List.getD_eq_getElem?_getD, List.getElem?_eq_none h]

lemma getD_map_get {α β : Type} (l : List α) (F : α → β) (i : Nat)
    (h : i < l.length) (d : β) :
    (l.map F).getD i d = F (l.get ⟨i, h⟩) := by
  have h2 : i < (l.map F).length := by simpa using h
  rw [getD_eq_get _ _ _ h2]
  simp

lemma buildAvgData_length (recs : List EBSDPointData) :
    (buildAvgData recs).length = (distinctFeatures recs).length := by
  simp [buildAvgData]

lemma buildAvgData_getD_grain (recs : List EBSDPointData) (g : Nat)
    (h : g < (distinctFeatures recs).length) :
    ((buildAvgData recs).getD g default).grain
      = (distinctFeatures recs).get ⟨g, h⟩ := by
  rw [buildAvgData, getD_map_get _ _ _ h]

lemma buildAvgData_getD_phase (recs : List EBSDPointData) (g : Nat)
    (h : g < (distinctFeatures recs).length) :
    ((buildAvgData recs).getD g default).phase
      = firstPhase recs ((distinctFeatures recs).get ⟨g, h⟩) := by
  rw [buildAvgData, getD_map_get _ _ _ h]

lemma avg_phase_lt (recs : List EBSDPointData) (g : Nat)
    (h : g < (distinctFeatures recs).length) :
    ((buildAvgData recs).getD g default).phase < maxPhase recs + 1 := by
  rw [buildAvgData_getD_phase recs g h]
  have hmem : (distinctFeatures recs).get ⟨g, h⟩ ∈ distinctFeatures recs :=
    List.get_mem _ _ _
  obtain ⟨r, hr, _, hp⟩ :=
    firstPhase_spec recs _ ((mem_distinctFeatures recs _).mp hmem)
  rw [hp]
  exact Nat.lt_succ_of_le (phase_le_foldl_max recs 0 r hr)

lemma buildGlobalId_length (recs : List EBSDPointData) :
    (buildGlobalId recs).length = maxPhase recs + 1 := by
  simp [buildGlobalId]

lemma buildGlobalId_getD (recs : List EBSDPointData) (p : Nat)
    (hp : p < maxPhase recs + 1) :
    (buildGlobalId recs).getD p []
      = (List.range (distinctFeatures recs).length).filter
          (fun g => ((buildAvgData recs).getD g default).phase == p) := by
  have hp2 : p < (List.range (maxPhase recs + 1)).length := by simpa using hp
  rw [buildGlobalId, getD_map_get _ _ _ hp2]
  simp

lemma mem_bucket (recs : List EBSDPointData) (p g : Nat) :
    g ∈ (buildGlobalId recs).getD p [] ↔
      p < maxPhase recs + 1 ∧ g < (distinctFeatures recs).length ∧
        ((buildAvgData recs).getD g default).phase = p := by
  by_cases hp : p < maxPhase recs + 1
  · rw [buildGlobalId_getD recs p hp]
    simp [List.mem_filter, List.mem_range, hp]
  · rw [getD_eq_default_of_le]
    · simp [hp]
    · rw [buildGlobalId_length]
      omega

lemma bucket_nodup (recs : List EBSDPointData) (p : Nat) :
    ((buildGlobalId recs).getD p []).Nodup := by
  by_cases hp : p < maxPhase recs + 1
  · rw [buildGlobalId_getD recs p hp]
    exact (List.nodup_range _).filter _
  · rw [getD_eq_default_of_le]
    · exact List.nodup_nil
    · rw [buildGlobalId_length]
      omega

lemma globalID_bound (hd : EBSDHeader) (recs : List EBSDPointData)
    (s : EBSDReader) (hload : readFile hd recs = .ok s)
    (phase local_id : Nat) (hp : phase < getPhaseNum s)
    (hl : local_id < getGrainNumPhase s phase) :
    getGlobalID s phase local_id < (distinctFeatures recs).length ∧
      ((buildAvgData recs).getD (getGlobalID s phase local_id) default).phase = phase ∧
      s.avg_data = buildAvgData recs ∧
      s.feature_num = (distinctFeatures recs).length ∧
      s.global_id_map = assignIds 0 (distinctFeatures recs) := by
  obtain ⟨hs, -⟩ := readFile_ok hd recs s hload
  subst hs
  have hbl : local_id < ((buildGlobalId recs).getD phase []).length := hl
  have hget : getGlobalID (aggregate hd recs) phase local_id
      = ((buildGlobalId recs).getD phase []).get ⟨local_id, hbl⟩ :=
    getD_eq_get _ _ _ hbl
  have hmem : getGlobalID (aggregate hd recs) phase local_id
      ∈ (buildGlobalId recs).getD phase [] := by
    rw [hget]
    exact List.get_mem _ _ _
  obtain ⟨h1, h2, h3⟩ := (mem_bucket recs phase _).mp hmem
  exact ⟨h2, h3, rfl, rfl, rfl⟩

/-- C1: within a phase's local-id range the values returned by
`getFeatureID` and `getGlobalID` round-trip through the
feature-id-to-global-id map without loss: looking the feature id up in
`_global_id_map` yields exactly the global id, and the grain field stored at
that global id is exactly the feature id. -/
theorem featureID_globalID_mutual_inverse
    (hd : EBSDHeader) (recs : List EBSDPointData) (s : EBSDReader)
    (hload : readFile hd recs = .ok s) (phase local_id : Nat)
    (hp : phase < getPhaseNum s) (hl : local_id < getGrainNumPhase s phase) :
    List.lookup (getFeatureID s phase local_id) s.global_id_map
        = some (getGlobalID s phase local_id) ∧
      (getAvgData s (getGlobalID s phase local_id)).grain
        = getFeatureID s phase local_id := by
  obtain ⟨hg, hph, havg, hfn, hmap⟩ :=
    globalID_bound hd recs s hload phase local_id hp hl
  refine ⟨?_, rfl⟩
  rw [getFeatureID, havg, hmap, buildAvgData_getD_grain recs _ hg]
  have h :=
    lookup_assignIds (distinctFeatures recs) (distinctFeatures_nodup recs) 0 _ hg
  simpa using h

/-- C9: under the precondition `phase < getPhaseNum()` and
`local_id < getGrainNum(phase)` the unchecked indexing of
`getGlobalID`/`getFeatureID` is in bounds — the returned global id is a
valid index into the average-data array, whose size is `getGrainNum()`;
the accessors themselves are total and raise no lookup error. -/
theorem globalID_lt_grainNum
    (hd : EBSDHeader) (recs : List EBSDPointData) (s : EBSDReader)
    (hload : readFile hd recs = .ok s) (phase local_id : Nat)
    (hp : phase < getPhaseNum s) (hl : local_id < getGrainNumPhase s phase) :
    getGlobalID s phase local_id < getGrainNum s ∧
      getGlobalID s phase local_id < s.avg_data.length := by
  obtain ⟨hg, hph, havg, hfn, hmap⟩ :=
    globalID_bound hd recs s hload phase local_id hp hl
  constructor
  · rw [getGrainNum, hfn]
    exact hg
  · rw [havg, buildAvgData_length]
    exact hg

/-- C8: `getFeatureID` is definitionally linked to `getGlobalID` through the
average-data array: for every phase and local id it returns exactly the
grain (feature id) field of `getAvgData` at the global id returned by
`getGlobalID` — both accessors are maps out of (phase, local_id). -/
theorem featureID_eq_avgData_grain (s : EBSDReader) (phase local_id : Nat) :
    getFeatureID s phase local_id
      = (getAvgData s (getGlobalID s phase local_id)).grain := rfl

/-- C2: after a successful load `getPhaseNum()` is exactly one more than the
largest phase number observed among the voxel records, and when the records'
phase numbering starts at 1 phase 0 exists and contains no grains. -/
theorem phaseNum_eq_succ_max_phase
    (hd : EBSDHeader) (recs : List EBSDPointData) (s : EBSDReader)
    (hload : readFile hd recs = .ok s) :
    (∀ r ∈ recs, r.phase < getPhaseNum s) ∧
      (∃ r ∈ recs, getPhaseNum s = r.phase + 1) ∧
      ((∀ r ∈ recs, 1 ≤ r.phase) →
        0 < getPhaseNum s ∧ getGrainNumPhase s 0 = 0) := by
  obtain ⟨hs, hnx, hny, hnz, -, -, -, hlen⟩ := readFile_ok hd recs s hload
  subst hs
  have hpn : getPhaseNum (aggregate hd recs) = maxPhase recs + 1 :=
    buildGlobalId_length recs
  have hne : recs ≠ [] := by
    intro h
    rw [h] at hlen
    simp only [List.length_nil] at hlen
    have : hd.nx * hd.ny * hd.nz ≠ 0 := by positivity
    omega
  refine ⟨?_, ?_, ?_⟩
  · intro r hr
    rw [hpn]
    exact Nat.lt_succ_of_le (phase_le_foldl_max recs 0 r hr)
  · rcases foldl_max_attained recs 0 with h | ⟨r, hr, he⟩
    · obtain ⟨r, hr⟩ := List.exists_mem_of_ne_nil recs hne
      refine ⟨r, hr, ?_⟩
      have h1 : r.phase ≤ maxPhase recs := phase_le_foldl_max recs 0 r hr
      have h2 : maxPhase recs = 0 := h
      rw [hpn]
      omega
    · exact ⟨r, hr, by rw [hpn, maxPhase, he]⟩
  · intro hall
    refine ⟨by rw [hpn]; omega, ?_⟩
    rw [getGrainNumPhase]
    show ((buildGlobalId recs).getD 0 []).length = 0
    rw [List.length_eq_zero]
    by_contra hne2
    obtain ⟨g, hg⟩ := List.exists_mem_of_ne_nil _ hne2
    obtain ⟨hp0, hgn, hph⟩ := (mem_bucket recs 0 g).mp hg
    rw [buildAvgData_getD_phase recs g hgn] at hph
    have hmem : (distinctFeatures recs).get ⟨g, hgn⟩ ∈ distinctFeatures recs :=
      List.get_mem _ _ _
    obtain ⟨r, hr, -, hfp⟩ :=
      firstPhase_spec recs _ ((mem_distinctFeatures recs _).mp hmem)
    rw [hfp] at hph
    have := hall r hr
    omega

lemma sum_map_add {α M : Type} [AddCommMonoid M] (l : List α) (f g : α → M) :
    (l.map fun x => f x + g x).sum = (l.map f).sum + (l.map g).sum := by
  induction l with
  | nil => simp
  | cons a l ih =>
    simp only [List.map_cons, List.sum_cons, ih]
    abel

lemma sum_map_ite {M : Type} [AddCommMonoid M] (m k : Nat) (v : M) :
    ((List.range m).map fun p => if k = p then v else 0).sum
      = if k < m then v else 0 := by
  induction m with
  | zero => simp
  | succ m ih =>
    rw [List.range_succ, List.map_append, List.sum_append, ih]
    simp only [List.map_cons, List.map_nil, List.sum_cons, List.sum_nil, add_zero]
    rcases Nat.lt_trichotomy k m with h | h | h
    · rw [if_pos h, if_neg (Nat.ne_of_lt h), if_pos (by omega)]
      simp
    · subst h
      rw [if_neg (lt_irrefl k), if_pos rfl, if_pos (by omega)]
      simp
    · rw [if_neg (by omega), if_neg (by omega : ¬ k = m), if_neg (by omega)]
      simp

lemma sum_map_filter_classifier {M : Type} [AddCommMonoid M] (l : List Nat)
    (c : Nat → Nat) (m : Nat) (w : Nat → M) (h : ∀ x ∈ l, c x < m) :
    ((List.range m).map fun p => ((l.filter fun x => c x == p).map w).sum).sum
      = (l.map w).sum := by
  induction l with
  | nil => simp
  | cons a l ih =>
    have ha : c a < m := h a (List.mem_cons_self _ _)
    have hrest : ∀ x ∈ l, c x < m := fun x hx => h x (List.mem_cons_of_mem _ hx)
    have hpt : ∀ p, ((List.filter (fun x => c x == p) (a :: l)).map w).sum
        = (if c a = p then w a else 0) + ((l.filter fun x => c x == p).map w).sum := by
      intro p
      rw [List.filter_cons]
      by_cases hc : c a = p
      · rw [if_pos (by simp [hc]), if_pos hc]
        simp
      · rw [if_neg (by simp [hc]), if_neg hc, zero_add]
    calc ((List.range m).map
            fun p => ((List.filter (fun x => c x == p) (a :: l)).map w).sum).sum
        = ((List.range m).map fun p =>
            (if c a = p then w a else 0)
              + ((l.filter fun x => c x == p).map w).sum).sum :=
          congrArg List.sum (List.map_congr_left fun p _ => hpt p)
      _ = ((List.range m).map fun p => if c a = p then w a else 0).sum
            + ((List.range m).map
                fun p => ((l.filter fun x => c x == p).map w).sum).sum :=
          sum_map_add _ _ _
      _ = w a + (l.map w).sum := by rw [sum_map_ite, if_pos ha, ih hrest]
      _ = ((a :: l).map w).sum := by simp

lemma sum_map_one {α : Type} (l : List α) :
    (l.map fun _ => (1 : Nat)).sum = l.length := by
  induction l with
  | nil => rfl
  | cons a l ih => simp [ih, Nat.add_comm]

lemma sum_length_filter_classifier (l : List Nat) (c : Nat → Nat) (m : Nat)
    (h : ∀ x ∈ l, c x < m) :
    ((List.range m).map fun p => (l.filter fun x => c x == p).length).sum
      = l.length := by
  have h1 := sum_map_filter_classifier l c m (fun _ => (1 : Nat)) h
  rw [sum_map_one] at h1
  calc ((List.range m).map fun p => (l.filter fun x => c x == p).length).sum
      = ((List.range m).map fun p =>
          ((l.filter fun x => c x == p).map fun _ => (1 : Nat)).sum).sum :=
        congrArg List.sum (List.map_congr_left fun p _ => (sum_map_one _).symm)
    _ = l.length := h1

/-- C3: after a successful load `getGrainNum()` is the number of distinct
feature ids in the source records, `getGrainNum(phase)` is the length of the
phase's local-id list for every valid phase, and the per-phase counts sum to
`getGrainNum()` — the per-phase lists partition the grains. -/
theorem grainNum_counts_partition
    (hd : EBSDHeader) (recs : List EBSDPointData) (s : EBSDReader)
    (hload : readFile hd recs = .ok s) :
    getGrainNum s = ((recs.map fun r => r.feature).dedup).length ∧
      (∀ phase, phase < getPhaseNum s →
        getGrainNumPhase s phase = (s.global_id.getD phase []).length) ∧
      ((List.range (getPhaseNum s)).map fun phase => getGrainNumPhase s phase).sum
        = getGrainNum s := by
  obtain ⟨hs, -⟩ := readFile_ok hd recs s hload
  subst hs
  refine ⟨?_, fun phase _ => rfl, ?_⟩
  · show (distinctFeatures recs).length = _
    have hnd1 := distinctFeatures_nodup recs
    have hnd2 : ((recs.map fun r => r.feature).dedup).Nodup := List.nodup_dedup _
    have hfs : (distinctFeatures recs).toFinset
        = ((recs.map fun r => r.feature).dedup).toFinset := by
      ext x
      simp only [List.mem_toFinset, mem_distinctFeatures, List.mem_dedup,
        List.mem_map]
    have h1 := List.toFinset_card_of_nodup hnd1
    have h2 := List.toFinset_card_of_nodup hnd2
    rw [← h1, ← h2, hfs]
  · have hpn : getPhaseNum (aggregate hd recs) = maxPhase recs + 1 :=
      buildGlobalId_length recs
    have hcls : ∀ g ∈ List.range (distinctFeatures recs).length,
        ((buildAvgData recs).getD g default).phase < maxPhase recs + 1 :=
      fun g hg => avg_phase_lt recs g (List.mem_range.mp hg)
    have hsum := sum_length_filter_classifier
        (List.range (distinctFeatures recs).length)
        (fun g => ((buildAvgData recs).getD g default).phase)
        (maxPhase recs + 1) hcls
    rw [List.length_range] at hsum
    rw [hpn]
    calc ((List.range (maxPhase recs + 1)).map
            fun phase => getGrainNumPhase (aggregate hd recs) phase).sum
        = ((List.range (maxPhase recs + 1)).map fun p =>
            ((List.range (distinctFeatures recs).length).filter
              (fun g => ((buildAvgData recs).getD g default).phase == p)).length).sum := by
          refine congrArg List.sum (List.map_congr_left ?_)
          intro p hp
          show ((buildGlobalId recs).getD p []).length = _
          rw [buildGlobalId_getD recs p (List.mem_range.mp hp)]
      _ = (distinctFeatures recs).length := hsum
      _ = getGrainNum (aggregate hd recs) := rfl

/-- Witness for the C1 theorem at the example load, phase 1, local id 0. -/
theorem featureID_globalID_mutual_inverse_witness :
    List.lookup (getFeatureID s0 1 0) s0.global_id_map
        = some (getGlobalID s0 1 0) ∧
      (getAvgData s0 (getGlobalID s0 1 0)).grain = getFeatureID s0 1 0 :=
  featureID_globalID_mutual_inverse hd0 recs0 s0 rfl 1 0 (by decide) (by decide)

/-- Witness for the C9 theorem at the example load, phase 2, local id 0. -/
theorem globalID_lt_grainNum_witness :
    getGlobalID s0 2 0 < getGrainNum s0 ∧
      getGlobalID s0 2 0 < s0.avg_data.length :=
  globalID_lt_grainNum hd0 recs0 s0 rfl 2 0 (by decide) (by decide)

/-- Witness for the C2 theorem at the example load, whose records' phase
numbering starts at 1: a record phase is below `getPhaseNum` and phase 0 is
a valid, empty phase. -/
theorem phaseNum_eq_succ_max_phase_witness :
    (⟨2, 2⟩ : EBSDPointData).phase < getPhaseNum s0 ∧
      0 < getPhaseNum s0 ∧ getGrainNumPhase s0 0 = 0 :=
  have T := phaseNum_eq_succ_max_phase hd0 recs0 s0 rfl
  ⟨T.1 ⟨2, 2⟩ (by decide), (T.2.2 (by decide)).1, (T.2.2 (by decide)).2⟩

/-- Witness for the C3 theorem at the example load. -/
theorem grainNum_counts_partition_witness :
    getGrainNum s0 = ((recs0.map fun r => r.feature).dedup).length ∧
      getGrainNumPhase s0 1 = (s0.global_id.getD 1 []).length ∧
      ((List.range (getPhaseNum s0)).map fun phase => getGrainNumPhase s0 phase).sum
        = getGrainNum s0 :=
  have T := grainNum_counts_partition hd0 recs0 s0 rfl
  ⟨T.1, T.2.1 1 (by decide), T.2.2⟩

lemma spacing_nonneg (mn mx : ℚ) (count : Nat) (h : mn ≤ mx) :
    0 ≤ spacing mn mx count := by
  rw [spacing]
  split
  · exact le_refl 0
  · have : (0 : ℚ) ≤ (count : ℚ) := by positivity
    exact div_nonneg (by linarith) this

lemma spacing_cases (mn mx : ℚ) (count : Nat) :
    spacing mn mx count = 0 ∨
      (2 ≤ count ∧ mx = mn + count * spacing mn mx count) := by
  rw [spacing]
  split
  · exact Or.inl rfl
  · rename_i h
    right
    refine ⟨by omega, ?_⟩
    have hc : (count : ℚ) ≠ 0 := Nat.cast_ne_zero.mpr (by omega)
    field_simp

lemma spacing_dichotomy (mn mx : ℚ) (count : Nat) (h : mn ≤ mx) :
    spacing mn mx count = 0 ∨
      (0 < spacing mn mx count ∧ mx = mn + count * spacing mn mx count) := by
  rcases spacing_cases mn mx count with h0 | ⟨h2, hext⟩
  · exact Or.inl h0
  · rcases lt_or_eq_of_le (spacing_nonneg mn mx count h) with hlt | heq
    · exact Or.inr ⟨hlt, hext⟩
    · exact Or.inl heq.symm

lemma axisIndex_in_range (coord mn mx d : ℚ) (count : Nat)
    (hdich : d = 0 ∨ (0 < d ∧ mx = mn + count * d))
    (h1 : mn ≤ coord) (h2 : coord ≤ mx) :
    axisIndex coord mn d count = .ok (clampIdx ⌊(coord - mn) / d⌋ count) := by
  rcases hdich with hd | ⟨hd, hext⟩
  · rw [axisIndex, hd]
    norm_num
  · have hge : (0 : ℚ) ≤ (coord - mn) / d := div_nonneg (by linarith) (le_of_lt hd)
    have hfl : (0 : Int) ≤ ⌊(coord - mn) / d⌋ := Int.floor_nonneg.mpr hge
    have hle : (coord - mn) / d ≤ ((count : Nat) : ℚ) := by
      rw [div_le_iff₀ hd]
      rw [hext] at h2
      linarith
    have hfl2 : ⌊(coord - mn) / d⌋ ≤ ((count : Nat) : Int) := by
      calc ⌊(coord - mn) / d⌋ ≤ ⌊((count : Nat) : ℚ)⌋ := Int.floor_le_floor hle
        _ = ((count : Nat) : Int) := Int.floor_natCast _
    rw [axisIndex, if_neg]
    rintro (h | h) <;> omega

lemma axisIndex_far_out (coord mn mx d : ℚ) (count : Nat)
    (hd : 0 < d) (hext : mx = mn + count * d)
    (hout : coord < mn - d ∨ mx + d < coord) :
    axisIndex coord mn d count = .error .rangeError := by
  rw [axisIndex, if_pos]
  rcases hout with h | h
  · left
    have hx : (coord - mn) / d < ((-1 : Int) : ℚ) := by
      rw [div_lt_iff₀ hd]
      push_cast
      linarith
    exact Int.floor_lt.mpr hx
  · right
    have h2 : ((count : Int) + 1) ≤ ⌊(coord - mn) / d⌋ := by
      rw [Int.le_floor]
      push_cast
      rw [le_div_iff₀ hd]
      rw [hext] at h
      nlinarith
    omega

lemma axisIndex_error (coord mn d : ℚ) (count : Nat) (e : EBSDError)
    (h : axisIndex coord mn d count = .error e) : e = .rangeError := by
  rw [axisIndex] at h
  split at h
  · exact (Except.error.injEq _ _ ▸ h).symm
  · exact absurd h (by simp)

lemma ijkFromPoint_eq (s : EBSDReader) (p : Point) (i j k : Nat)
    (hx : axisIndex p.x s.minx s.dx s.nx = .ok i)
    (hy : axisIndex p.y s.miny s.dy s.ny = .ok j)
    (hz : axisIndex p.z s.minz s.dz s.nz = .ok k) :
    ijkFromPoint s p = .ok (i, j, k) := by
  rw [ijkFromPoint, hx, hy, hz]
  rfl

lemma ijkFromPoint_err (s : EBSDReader) (p : Point)
    (h : axisIndex p.x s.minx s.dx s.nx = .error .rangeError ∨
        axisIndex p.y s.miny s.dy s.ny = .error .rangeError ∨
        axisIndex p.z s.minz s.dz s.nz = .error .rangeError) :
    ijkFromPoint s p = .error .rangeError := by
  rw [ijkFromPoint]
  rcases h with h | h | h
  · rw [h]
    rfl
  · cases hx : axisIndex p.x s.minx s.dx s.nx with
    | error e =>
      have he := axisIndex_error _ _ _ _ _ hx
      subst he
      rfl
    | ok a =>
      rw [h]
      rfl
  · cases hx : axisIndex p.x s.minx s.dx s.nx with
    | error e =>
      have he := axisIndex_error _ _ _ _ _ hx
      subst he
      rfl
    | ok a =>
      cases hy : axisIndex p.y s.miny s.dy s.ny with
      | error e =>
        have he := axisIndex_error _ _ _ _ _ hy
        subst he
        rfl
      | ok b =>
        rw [h]
        rfl

lemma loaded_axes (hd : EBSDHeader) (recs : List EBSDPointData) (s : EBSDReader)
    (hload : readFile hd recs = .ok s) :
    (s.dx = 0 ∨ (0 < s.dx ∧ s.maxx = s.minx + s.nx * s.dx)) ∧
      (s.dy = 0 ∨ (0 < s.dy ∧ s.maxy = s.miny + s.ny * s.dy)) ∧
      (s.dz = 0 ∨ (0 < s.dz ∧ s.maxz = s.minz + s.nz * s.dz)) := by
  obtain ⟨hs, hnx, hny, hnz, hx, hy, hz, -⟩ := readFile_ok hd recs s hload
  subst hs
  exact ⟨spacing_dichotomy hd.minx hd.maxx hd.nx hx,
    spacing_dichotomy hd.miny hd.maxy hd.ny hy,
    spacing_dichotomy hd.minz hd.maxz hd.nz hz⟩

/-- C4: for a loaded reader, a query point inside or on the boundary of the
grid bounding box resolves to the linear voxel index obtained from the
per-axis floor indices clamped into `[0, count-1]` and combined as
`i + j*nx + k*nx*ny`, while a point more than one voxel outside the grid
along an active axis fails with a range error instead of being clamped. -/
theorem indexFromPoint_spec
    (hd : EBSDHeader) (recs : List EBSDPointData) (s : EBSDReader)
    (hload : readFile hd recs = .ok s) (p : Point) :
    (s.minx ≤ p.x ∧ p.x ≤ s.maxx ∧ s.miny ≤ p.y ∧ p.y ≤ s.maxy ∧
        s.minz ≤ p.z ∧ p.z ≤ s.maxz →
      indexFromPoint s p = .ok
        (clampIdx ⌊(p.x - s.minx) / s.dx⌋ s.nx
          + clampIdx ⌊(p.y - s.miny) / s.dy⌋ s.ny * s.nx
          + clampIdx ⌊(p.z - s.minz) / s.dz⌋ s.nz * s.nx * s.ny)) ∧
    (((0 < s.dx ∧ (p.x < s.minx - s.dx ∨ s.maxx + s.dx < p.x)) ∨
        (0 < s.dy ∧ (p.y < s.miny - s.dy ∨ s.maxy + s.dy < p.y)) ∨
        (0 < s.dz ∧ (p.z < s.minz - s.dz ∨ s.maxz + s.dz < p.z))) →
      indexFromPoint s p = .error .rangeError) := by
  obtain ⟨hdx, hdy, hdz⟩ := loaded_axes hd recs s hload
  constructor
  · rintro ⟨h1, h2, h3, h4, h5, h6⟩
    have ex := axisIndex_in_range p.x s.minx s.maxx s.dx s.nx hdx h1 h2
    have ey := axisIndex_in_range p.y s.miny s.maxy s.dy s.ny hdy h3 h4
    have ez := axisIndex_in_range p.z s.minz s.maxz s.dz s.nz hdz h5 h6
    rw [indexFromPoint, ijkFromPoint_eq s p _ _ _ ex ey ez]
    rfl
  · intro hfar
    have herr : axisIndex p.x s.minx s.dx s.nx = .error .rangeError ∨
        axisIndex p.y s.miny s.dy s.ny = .error .rangeError ∨
        axisIndex p.z s.minz s.dz s.nz = .error .rangeError := by
      rcases hfar with ⟨hpos, hout⟩ | ⟨hpos, hout⟩ | ⟨hpos, hout⟩
      · left
        rcases hdx with h0 | ⟨-, hext⟩
        · exact absurd h0 (by linarith)
        · exact axisIndex_far_out p.x s.minx s.maxx s.dx s.nx hpos hext hout
      · right; left
        rcases hdy with h0 | ⟨-, hext⟩
        · exact absurd h0 (by linarith)
        · exact axisIndex_far_out p.y s.miny s.maxy s.dy s.ny hpos hext hout
      · right; right
        rcases hdz with h0 | ⟨-, hext⟩
        · exact absurd h0 (by linarith)
        · exact axisIndex_far_out p.z s.minz s.maxz s.dz s.nz hpos hext hout
    rw [indexFromPoint, ijkFromPoint_err s p herr]
    rfl

/-- Witness for the C4 theorem: the example point resolves inside the grid
to the clamped linear index, and a point far beyond the x extent is a range
error. -/
theorem indexFromPoint_spec_witness :
    indexFromPoint s0 p0 = .ok
        (clampIdx ⌊(p0.x - s0.minx) / s0.dx⌋ s0.nx
          + clampIdx ⌊(p0.y - s0.miny) / s0.dy⌋ s0.ny * s0.nx
          + clampIdx ⌊(p0.z - s0.minz) / s0.dz⌋ s0.nz * s0.nx * s0.ny) ∧
      indexFromPoint s0 ⟨100, 0, 0⟩ = .error .rangeError :=
  ⟨(indexFromPoint_spec hd0 recs0 s0 rfl p0).1
      (by norm_num [s0, aggregate, spacing, hd0, p0]),
    (indexFromPoint_spec hd0 recs0 s0 rfl ⟨100, 0, 0⟩).2
      (by norm_num [s0, aggregate, spacing, hd0])⟩

lemma clampIdx_lt (raw : Int) (count : Nat) (hc : 1 ≤ count) :
    clampIdx raw count < count := by
  rw [clampIdx]
  have h1 : min (max raw 0) ((count : Int) - 1) ≤ (count : Int) - 1 :=
    min_le_right _ _
  omega

lemma axisIndex_ok_lt (coord mn d : ℚ) (count : Nat) (i : Nat) (hc : 1 ≤ count)
    (h : axisIndex coord mn d count = .ok i) : i < count := by
  rw [axisIndex] at h
  split at h
  · exact absurd h (by simp)
  · have he : i = clampIdx ⌊(coord - mn) / d⌋ count := (Except.ok.injEq _ _ ▸ h).symm
    rw [he]
    exact clampIdx_lt _ _ hc

lemma ijkFromPoint_inv (s : EBSDReader) (p : Point) (t : Nat × Nat × Nat)
    (h : ijkFromPoint s p = .ok t) :
    axisIndex p.x s.minx s.dx s.nx = .ok t.1 ∧
      axisIndex p.y s.miny s.dy s.ny = .ok t.2.1 ∧
      axisIndex p.z s.minz s.dz s.nz = .ok t.2.2 := by
  rw [ijkFromPoint] at h
  cases hax : axisIndex p.x s.minx s.dx s.nx with
  | error e =>
    rw [hax] at h
    exact Except.noConfusion (show (Except.error e : Except EBSDError (Nat × Nat × Nat)) = .ok t from h)
  | ok a =>
    rw [hax] at h
    cases hay : axisIndex p.y s.miny s.dy s.ny with
    | error e =>
      rw [hay] at h
      exact Except.noConfusion (show (Except.error e : Except EBSDError (Nat × Nat × Nat)) = .ok t from h)
    | ok b =>
      rw [hay] at h
      cases haz : axisIndex p.z s.minz s.dz s.nz with
      | error e =>
        rw [haz] at h
        exact Except.noConfusion (show (Except.error e : Except EBSDError (Nat × Nat × Nat)) = .ok t from h)
      | ok c =>
        rw [haz] at h
        have ht : t = (a, b, c) :=
          ((Except.ok.injEq _ _).mp (show Except.ok (ε := EBSDError) (a, b, c) = .ok t from h)).symm
        subst ht
        exact ⟨rfl, rfl, rfl⟩

lemma ijkFromPoint_ok_lt (s : EBSDReader) (p : Point) (i j k : Nat)
    (h : ijkFromPoint s p = .ok (i, j, k))
    (hx : 1 ≤ s.nx) (hy : 1 ≤ s.ny) (hz : 1 ≤ s.nz) :
    i < s.nx ∧ j < s.ny ∧ k < s.nz := by
  obtain ⟨h1, h2, h3⟩ := ijkFromPoint_inv s p (i, j, k) h
  exact ⟨axisIndex_ok_lt _ _ _ _ _ hx h1, axisIndex_ok_lt _ _ _ _ _ hy h2,
    axisIndex_ok_lt _ _ _ _ _ hz h3⟩

lemma mem_axisNeighbors (idx count i : Nat) :
    i ∈ axisNeighbors idx count ↔ i < count ∧ idx ≤ i + 1 ∧ i ≤ idx + 1 := by
  rw [axisNeighbors]
  simp [List.mem_filter, List.mem_range]

lemma self_mem_axisNeighbors (idx count : Nat) (h : idx < count) :
    idx ∈ axisNeighbors idx count := by
  rw [mem_axisNeighbors]
  omega

lemma linear_index_lt (i j k nx ny nz : Nat) (hi : i < nx) (hj : j < ny)
    (hk : k < nz) : i + j * nx + k * nx * ny < nx * ny * nz := by
  have h4 : i + j * nx + 1 ≤ nx * ny := by
    calc i + j * nx + 1 ≤ nx + j * nx := by omega
      _ = (j + 1) * nx := by ring
      _ ≤ ny * nx := Nat.mul_le_mul_right _ hj
      _ = nx * ny := Nat.mul_comm _ _
  have h5 : i + j * nx + k * nx * ny + 1 ≤ nx * ny * nz := by
    calc i + j * nx + k * nx * ny + 1 ≤ nx * ny + k * (nx * ny) := by
          have he : k * nx * ny = k * (nx * ny) := by ring
          omega
      _ = (k + 1) * (nx * ny) := by ring
      _ ≤ nz * (nx * ny) := Nat.mul_le_mul_right _ hk
      _ = nx * ny * nz := by ring
  omega

lemma neighborhoodIdx_lt (s : EBSDReader) (i j k idx : Nat)
    (h : idx ∈ neighborhoodIdx s i j k) : idx < s.nx * s.ny * s.nz := by
  rw [neighborhoodIdx] at h
  simp only [List.mem_flatMap, List.mem_map] at h
  obtain ⟨k', hk', j', hj', i', hi', rfl⟩ := h
  have h1 := ((mem_axisNeighbors _ _ _).mp hi').1
  have h2 := ((mem_axisNeighbors _ _ _).mp hj').1
  have h3 := ((mem_axisNeighbors _ _ _).mp hk').1
  exact linear_index_lt i' j' k' s.nx s.ny s.nz h1 h2 h3

lemma self_mem_neighborhoodIdx (s : EBSDReader) (i j k : Nat)
    (hi : i < s.nx) (hj : j < s.ny) (hk : k < s.nz) :
    i + j * s.nx + k * s.nx * s.ny ∈ neighborhoodIdx s i j k := by
  rw [neighborhoodIdx]
  simp only [List.mem_flatMap, List.mem_map]
  exact ⟨k, self_mem_axisNeighbors _ _ hk, j, self_mem_axisNeighbors _ _ hj,
    i, self_mem_axisNeighbors _ _ hi, rfl⟩

lemma neighborhoodFeatures_mem (hd : EBSDHeader) (recs : List EBSDPointData)
    (s : EBSDReader) (hload : readFile hd recs = .ok s) (i j k : Nat) (f : Nat)
    (hf : f ∈ neighborhoodFeatures s i j k) : ∃ r ∈ recs, r.feature = f := by
  obtain ⟨hs, hnx, hny, hnz, -, -, -, hlen⟩ := readFile_ok hd recs s hload
  rw [neighborhoodFeatures] at hf
  simp only [List.mem_map] at hf
  obtain ⟨idx, hidx, rfl⟩ := hf
  have hlt : idx < recs.length := by
    have h1 := neighborhoodIdx_lt s i j k idx hidx
    have h2 : s.nx = hd.nx := by rw [hs]; rfl
    have h3 : s.ny = hd.ny := by rw [hs]; rfl
    have h4 : s.nz = hd.nz := by rw [hs]; rfl
    rw [h2, h3, h4] at h1
    omega
  have hdata : s.data = recs := by rw [hs]; rfl
  rw [hdata, getD_eq_get _ _ _ hlt]
  exact ⟨_, List.get_mem _ _ _, rfl⟩

lemma lookup_feature_lt (hd : EBSDHeader) (recs : List EBSDPointData)
    (s : EBSDReader) (hload : readFile hd recs = .ok s) (f : Nat)
    (hf : ∃ r ∈ recs, r.feature = f) :
    ∃ g, List.lookup f s.global_id_map = some g ∧ g < s.feature_num := by
  obtain ⟨hs, -⟩ := readFile_ok hd recs s hload
  subst hs
  have hmem : f ∈ distinctFeatures recs := (mem_distinctFeatures recs f).mpr hf
  obtain ⟨g, h1, -, h3⟩ := lookup_assignIds_of_mem (distinctFeatures recs) 0 f hmem
  exact ⟨g, h1, by simpa using h3⟩

lemma sum_countP_lookup (feats : List Nat) (m : List (Nat × Nat)) (n : Nat)
    (h : ∀ f ∈ feats, ∃ g, List.lookup f m = some g ∧ g < n) :
    ((List.range n).map fun gid =>
        feats.countP fun f => List.lookup f m == some gid).sum
      = feats.length := by
  induction feats with
  | nil => simp
  | cons a l ih =>
    obtain ⟨g0, hg0, hg0n⟩ := h a (List.mem_cons_self _ _)
    have hrest : ∀ f ∈ l, ∃ g, List.lookup f m = some g ∧ g < n :=
      fun f hf => h f (List.mem_cons_of_mem _ hf)
    have hpt : ∀ gid, ((a :: l).countP fun f => List.lookup f m == some gid)
        = (if g0 = gid then 1 else 0)
          + (l.countP fun f => List.lookup f m == some gid) := by
      intro gid
      rw [List.countP_cons, hg0]
      by_cases hc : g0 = gid
      · subst hc
        simp only [beq_self_eq_true, if_pos rfl]
        omega
      · simp [hc]
    calc ((List.range n).map
            fun gid => (a :: l).countP fun f => List.lookup f m == some gid).sum
        = ((List.range n).map fun gid => (if g0 = gid then 1 else 0)
            + (l.countP fun f => List.lookup f m == some gid)).sum :=
          congrArg List.sum (List.map_congr_left fun gid _ => hpt gid)
      _ = ((List.range n).map fun gid => if g0 = gid then (1 : Nat) else 0).sum
            + ((List.range n).map
                fun gid => l.countP fun f => List.lookup f m == some gid).sum :=
          sum_map_add _ _ _
      _ = 1 + l.length := by rw [sum_map_ite, if_pos hg0n, ih hrest]
      _ = (a :: l).length := by
          rw [List.length_cons]
          omega

lemma sum_map_div {α : Type} (l : List α) (F : α → ℚ) (T : ℚ) :
    (l.map fun x => F x / T).sum = (l.map F).sum / T := by
  induction l with
  | nil => simp
  | cons a l ih => simp [ih, add_div]

lemma getD_map_range (F : Nat → ℚ) (n g : Nat) (hg : g < n) :
    ((List.range n).map F).getD g 0 = F g := by
  have h2 : g < ((List.range n).map F).length := by simpa using hg
  rw [getD_eq_get _ _ _ h2]
  simp

lemma getD_nonneg (gw : List ℚ) (h : ∀ w ∈ gw, 0 ≤ w) (x : Nat) :
    0 ≤ gw.getD x 0 := by
  by_cases hx : x < gw.length
  · rw [getD_eq_get _ _ _ hx]
    exact h _ (List.get_mem _ _ _)
  · rw [getD_eq_default_of_le _ _ _ (by omega)]

lemma grainWeightsAt_normalized (hd : EBSDHeader) (recs : List EBSDPointData)
    (s : EBSDReader) (hload : readFile hd recs = .ok s) (i j k : Nat)
    (hi : i < s.nx) (hj : j < s.ny) (hk : k < s.nz) :
    (∀ w ∈ grainWeightsAt s i j k, 0 ≤ w) ∧ (grainWeightsAt s i j k).sum = 1 := by
  constructor
  · intro w hw
    rw [grainWeightsAt] at hw
    simp only [List.mem_map] at hw
    obtain ⟨gid, -, rfl⟩ := hw
    positivity
  · have hne : neighborhoodFeatures s i j k ≠ [] := by
      have hmem := self_mem_neighborhoodIdx s i j k hi hj hk
      intro hnil
      rw [neighborhoodFeatures] at hnil
      rw [List.map_eq_nil_iff] at hnil
      rw [hnil] at hmem
      exact List.not_mem_nil _ hmem
    have hlk : ∀ f ∈ neighborhoodFeatures s i j k,
        ∃ g, List.lookup f s.global_id_map = some g ∧ g < s.feature_num :=
      fun f hf => lookup_feature_lt hd recs s hload f
        (neighborhoodFeatures_mem hd recs s hload i j k f hf)
    have hdiv := sum_map_div (List.range s.feature_num)
        (fun gid => (((neighborhoodFeatures s i j k).countP
            fun f => List.lookup f s.global_id_map == some gid : Nat) : ℚ))
        (((neighborhoodFeatures s i j k).length : Nat) : ℚ)
    rw [grainWeightsAt, hdiv]
    have hcnt := sum_countP_lookup (neighborhoodFeatures s i j k)
        s.global_id_map s.feature_num hlk
    have hcast : ((List.range s.feature_num).map fun gid =>
        (((neighborhoodFeatures s i j k).countP
            fun f => List.lookup f s.global_id_map == some gid : Nat) : ℚ)).sum
        = (((neighborhoodFeatures s i j k).length : Nat) : ℚ) := by
      rw [← hcnt, Nat.cast_list_sum, List.map_map]
      rfl
    rw [hcast]
    have hlen : 0 < (neighborhoodFeatures s i j k).length :=
      List.length_pos.mpr hne
    rw [div_self]
    exact ne_of_gt (by exact_mod_cast hlen)

lemma loaded_counts (hd : EBSDHeader) (recs : List EBSDPointData)
    (s : EBSDReader) (hload : readFile hd recs = .ok s) :
    1 ≤ s.nx ∧ 1 ≤ s.ny ∧ 1 ≤ s.nz := by
  obtain ⟨hs, hnx, hny, hnz, -⟩ := readFile_ok hd recs s hload
  subst hs
  exact ⟨by show 1 ≤ hd.nx; omega, by show 1 ≤ hd.ny; omega,
    by show 1 ≤ hd.nz; omega⟩

lemma phaseWeightsAt_total (hd : EBSDHeader) (recs : List EBSDPointData)
    (s : EBSDReader) (hload : readFile hd recs = .ok s) (gw : List ℚ) :
    (phaseWeightsAt s gw).sum
      = ((List.range s.feature_num).map fun g => gw.getD g 0).sum := by
  obtain ⟨hs, -⟩ := readFile_ok hd recs s hload
  subst hs
  rw [phaseWeightsAt]
  show ((buildGlobalId recs).map _).sum = _
  rw [buildGlobalId, List.map_map]
  have hcls : ∀ g ∈ List.range (distinctFeatures recs).length,
      ((buildAvgData recs).getD g default).phase < maxPhase recs + 1 :=
    fun g hg => avg_phase_lt recs g (List.mem_range.mp hg)
  exact sum_map_filter_classifier (List.range (distinctFeatures recs).length)
    (fun g => ((buildAvgData recs).getD g default).phase) (maxPhase recs + 1)
    (fun g => gw.getD g 0) hcls

lemma sum_getD_range_map (F : Nat → ℚ) (n : Nat) :
    ((List.range n).map fun g => ((List.range n).map F).getD g 0).sum
      = ((List.range n).map F).sum :=
  congrArg List.sum (List.map_congr_left fun g hg =>
    getD_map_range F n g (List.mem_range.mp hg))

lemma list_sum_nonneg (l : List ℚ) (h : ∀ x ∈ l, 0 ≤ x) : 0 ≤ l.sum := by
  induction l with
  | nil => simp
  | cons a l ih =>
    rw [List.sum_cons]
    have h1 := h a (List.mem_cons_self _ _)
    have h2 := ih fun x hx => h x (List.mem_cons_of_mem _ hx)
    linarith

/-- C5: every entry of the built node weight maps is a normalized
distribution — the grain weights are non-negative and sum exactly to 1, and
the phase weights, each obtained as the sum of the grain weights of the
grains sharing that phase, are non-negative and sum exactly to 1. -/
theorem nodeWeights_normalized (hd : EBSDHeader) (recs : List EBSDPointData)
    (s : EBSDReader) (hload : readFile hd recs = .ok s)
    (nodes : List (Nat × Point)) :
    (∀ e ∈ (buildNodeWeightMaps s nodes).1,
        (∀ w ∈ e.2, 0 ≤ w) ∧ e.2.sum = 1) ∧
      (∀ e ∈ (buildNodeWeightMaps s nodes).2,
        (∀ w ∈ e.2, 0 ≤ w) ∧ e.2.sum = 1) := by
  obtain ⟨hx1, hy1, hz1⟩ := loaded_counts hd recs s hload
  constructor
  · intro e he
    rw [buildNodeWeightMaps] at he
    simp only [List.mem_filterMap] at he
    obtain ⟨nd, -, hnd⟩ := he
    cases hres : ijkFromPoint s nd.2 with
    | error er =>
      rw [hres] at hnd
      simp at hnd
    | ok t =>
      rw [hres] at hnd
      simp only [Option.some.injEq] at hnd
      obtain ⟨i, j, k⟩ := t
      obtain ⟨hi, hj, hk⟩ := ijkFromPoint_ok_lt s nd.2 i j k hres hx1 hy1 hz1
      rw [← hnd]
      obtain ⟨h1, h2⟩ := grainWeightsAt_normalized hd recs s hload i j k hi hj hk
      exact ⟨h1, h2⟩
  · intro e he
    rw [buildNodeWeightMaps] at he
    simp only [List.mem_filterMap] at he
    obtain ⟨nd, -, hnd⟩ := he
    cases hres : ijkFromPoint s nd.2 with
    | error er =>
      rw [hres] at hnd
      simp at hnd
    | ok t =>
      rw [hres] at hnd
      simp only [Option.some.injEq] at hnd
      obtain ⟨i, j, k⟩ := t
      obtain ⟨hi, hj, hk⟩ := ijkFromPoint_ok_lt s nd.2 i j k hres hx1 hy1 hz1
      rw [← hnd]
      obtain ⟨h1, h2⟩ := grainWeightsAt_normalized hd recs s hload i j k hi hj hk
      constructor
      · intro w hw
        rw [phaseWeightsAt] at hw
        simp only [List.mem_map] at hw
        obtain ⟨bucket, -, rfl⟩ := hw
        refine list_sum_nonneg _ ?_
        intro x hx
        simp only [List.mem_map] at hx
        obtain ⟨g, -, rfl⟩ := hx
        exact getD_nonneg _ h1 g
      · have ht := phaseWeightsAt_total hd recs s hload (grainWeightsAt s i j k)
        have h3 : ((List.range s.feature_num).map
            fun g => (grainWeightsAt s i j k).getD g 0).sum
            = (grainWeightsAt s i j k).sum := by
          rw [grainWeightsAt]
          exact sum_getD_range_map _ _
        rw [ht, h3, h2]

/-- C10: the node weight maps are dense — every grain-weight vector in the
node-to-grain map has one entry per global grain id (length
`getGrainNum()`), and every phase-weight vector in the node-to-phase map has
one entry per phase (length `getPhaseNum()`). -/
theorem nodeWeightMaps_dense (s : EBSDReader) (nodes : List (Nat × Point)) :
    (∀ e ∈ getNodeToGrainWeightMap s nodes, e.2.length = getGrainNum s) ∧
      (∀ e ∈ getNodeToPhaseWeightMap s nodes, e.2.length = getPhaseNum s) := by
  constructor
  · intro e he
    rw [getNodeToGrainWeightMap, buildNodeWeightMaps] at he
    simp only [List.mem_filterMap] at he
    obtain ⟨nd, -, hnd⟩ := he
    cases hres : ijkFromPoint s nd.2 with
    | error er =>
      rw [hres] at hnd
      simp at hnd
    | ok t =>
      rw [hres] at hnd
      simp only [Option.some.injEq] at hnd
      rw [← hnd]
      simp [grainWeightsAt, getGrainNum]
  · intro e he
    rw [getNodeToPhaseWeightMap, buildNodeWeightMaps] at he
    simp only [List.mem_filterMap] at he
    obtain ⟨nd, -, hnd⟩ := he
    cases hres : ijkFromPoint s nd.2 with
    | error er =>
      rw [hres] at hnd
      simp at hnd
    | ok t =>
      rw [hres] at hnd
      simp only [Option.some.injEq] at hnd
      rw [← hnd]
      simp [phaseWeightsAt, getPhaseNum]

/-- Witness for the C5 theorem: the example node's grain and phase weights
sum to 1. -/
theorem nodeWeights_normalized_witness :
    (grainWeightsAt s0 0 0 0).sum = 1 ∧
      (phaseWeightsAt s0 (grainWeightsAt s0 0 0 0)).sum = 1 := by
  have hres : ijkFromPoint s0 p0 = .ok (0, 0, 0) := by
    norm_num [ijkFromPoint, axisIndex, clampIdx, s0, aggregate, spacing, hd0, p0,
      Bind.bind, Except.bind, Pure.pure, Except.pure]
  have T := nodeWeights_normalized hd0 recs0 s0 rfl [(0, p0)]
  constructor
  · exact (T.1 (0, grainWeightsAt s0 0 0 0)
      (by simp [buildNodeWeightMaps, hres])).2
  · exact (T.2 (0, phaseWeightsAt s0 (grainWeightsAt s0 0 0 0))
      (by simp [buildNodeWeightMaps, hres])).2

/-- Witness for the C10 theorem: the example node's weight vectors have one
entry per grain and per phase. -/
theorem nodeWeightMaps_dense_witness :
    (grainWeightsAt s0 0 0 0).length = getGrainNum s0 ∧
      (phaseWeightsAt s0 (grainWeightsAt s0 0 0 0)).length = getPhaseNum s0 := by
  have hres : ijkFromPoint s0 p0 = .ok (0, 0, 0) := by
    norm_num [ijkFromPoint, axisIndex, clampIdx, s0, aggregate, spacing, hd0, p0,
      Bind.bind, Except.bind, Pure.pure, Except.pure]
  have T := nodeWeightMaps_dense s0 [(0, p0)]
  constructor
  · exact T.1 (0, grainWeightsAt s0 0 0 0)
      (by simp [getNodeToGrainWeightMap, buildNodeWeightMaps, hres])
  · exact T.2 (0, phaseWeightsAt s0 (grainWeightsAt s0 0 0 0))
      (by simp [getNodeToPhaseWeightMap, buildNodeWeightMaps, hres])

lemma sum_map_getD_zero (bucket : List Nat) (gw : List ℚ) (g : Nat)
    (hz : ∀ x, x ≠ g → gw.getD x 0 = 0) (hg : g ∉ bucket) :
    (bucket.map fun x => gw.getD x 0).sum = 0 := by
  induction bucket with
  | nil => simp
  | cons a l ih =>
    rw [List.map_cons, List.sum_cons]
    rw [hz a (fun he => hg (he ▸ List.mem_cons_self a l)), zero_add]
    exact ih fun hmem => hg (List.mem_cons_of_mem _ hmem)

lemma sum_map_getD_onehot (bucket : List Nat) (gw : List ℚ) (g : Nat)
    (h1 : gw.getD g 0 = 1) (hz : ∀ x, x ≠ g → gw.getD x 0 = 0)
    (hnd : bucket.Nodup) (hg : g ∈ bucket) :
    (bucket.map fun x => gw.getD x 0).sum = 1 := by
  induction bucket with
  | nil => simp at hg
  | cons a l ih =>
    rw [List.map_cons, List.sum_cons]
    obtain ⟨hna, hndl⟩ := List.nodup_cons.mp hnd
    by_cases hag : a = g
    · subst hag
      rw [h1, sum_map_getD_zero l gw a hz hna, add_zero]
    · rcases List.mem_cons.mp hg with h | h
      · exact absurd h.symm hag
      · rw [hz a hag, zero_add]
        exact ih hndl h

/-- C6: a query point whose full voxel neighborhood lies within a single
grain yields a one-hot grain weight vector (1 at that grain's global id, 0
at every other valid global id) and a one-hot phase weight vector (1 at that
grain's phase, 0 at every other valid phase). -/
theorem singleGrain_onehot (hd : EBSDHeader) (recs : List EBSDPointData)
    (s : EBSDReader) (hload : readFile hd recs = .ok s) (p : Point)
    (i j k f : Nat) (hres : ijkFromPoint s p = .ok (i, j, k))
    (hsame : ∀ idx ∈ neighborhoodIdx s i j k,
      (s.data.getD idx default).feature = f) :
    ∃ g, List.lookup f s.global_id_map = some g ∧
      (grainWeightsAt s i j k).getD g 0 = 1 ∧
      (∀ g2 < getGrainNum s, g2 ≠ g → (grainWeightsAt s i j k).getD g2 0 = 0) ∧
      (phaseWeightsAt s (grainWeightsAt s i j k)).getD
          (getAvgData s g).phase 0 = 1 ∧
      (∀ q < getPhaseNum s, q ≠ (getAvgData s g).phase →
        (phaseWeightsAt s (grainWeightsAt s i j k)).getD q 0 = 0) := by
  obtain ⟨hx1, hy1, hz1⟩ := loaded_counts hd recs s hload
  obtain ⟨hi, hj, hk⟩ := ijkFromPoint_ok_lt s p i j k hres hx1 hy1 hz1
  have hfeat : ∀ x ∈ neighborhoodFeatures s i j k, x = f := by
    intro x hx
    rw [neighborhoodFeatures] at hx
    simp only [List.mem_map] at hx
    obtain ⟨idx, hidx, rfl⟩ := hx
    exact hsame idx hidx
  have hselfmem : f ∈ neighborhoodFeatures s i j k := by
    have hmem := self_mem_neighborhoodIdx s i j k hi hj hk
    rw [neighborhoodFeatures]
    simp only [List.mem_map]
    exact ⟨_, hmem, hsame _ hmem⟩
  obtain ⟨g, hg, hgn⟩ := lookup_feature_lt hd recs s hload f
    (neighborhoodFeatures_mem hd recs s hload i j k f hselfmem)
  have hTpos : 0 < (neighborhoodFeatures s i j k).length := by
    refine List.length_pos.mpr ?_
    intro hnil
    rw [hnil] at hselfmem
    exact List.not_mem_nil _ hselfmem
  have hT0 : (((neighborhoodFeatures s i j k).length : Nat) : ℚ) ≠ 0 :=
    ne_of_gt (by exact_mod_cast hTpos)
  have hone : (grainWeightsAt s i j k).getD g 0 = 1 := by
    rw [grainWeightsAt, getD_map_range _ _ _ hgn]
    have hc : ((neighborhoodFeatures s i j k).countP
        fun x => List.lookup x s.global_id_map == some g)
        = (neighborhoodFeatures s i j k).length := by
      rw [List.countP_eq_length]
      intro x hx
      rw [hfeat x hx, hg]
      simp
    rw [hc]
    exact div_self hT0
  have hzero : ∀ g2, g2 ≠ g → (grainWeightsAt s i j k).getD g2 0 = 0 := by
    intro g2 hne
    by_cases hlt : g2 < s.feature_num
    · rw [grainWeightsAt, getD_map_range _ _ _ hlt]
      have hc : ((neighborhoodFeatures s i j k).countP
          fun x => List.lookup x s.global_id_map == some g2) = 0 := by
        rw [List.countP_eq_zero]
        intro x hx
        rw [hfeat x hx, hg]
        simp only [beq_iff_eq, Option.some.injEq]
        omega
      rw [hc]
      norm_num
    · rw [grainWeightsAt]
      refine getD_eq_default_of_le _ _ _ ?_
      rw [List.length_map, List.length_range]
      omega
  obtain ⟨hs, -⟩ := readFile_ok hd recs s hload
  subst hs
  have hphlt : (getAvgData (aggregate hd recs) g).phase < maxPhase recs + 1 :=
    avg_phase_lt recs g hgn
  refine ⟨g, hg, hone, fun g2 _ hne => hzero g2 hne, ?_, ?_⟩
  · have hq : (getAvgData (aggregate hd recs) g).phase
        < ((aggregate hd recs).global_id).length := by
      show _ < (buildGlobalId recs).length
      rw [buildGlobalId_length]
      exact hphlt
    rw [phaseWeightsAt, getD_map_get _ _ _ hq]
    have hbg : (aggregate hd recs).global_id.get ⟨_, hq⟩
        = (buildGlobalId recs).getD (getAvgData (aggregate hd recs) g).phase [] :=
      (getD_eq_get _ _ _ hq).symm
    rw [hbg]
    refine sum_map_getD_onehot _ _ g hone (fun x hx => hzero x hx)
      (bucket_nodup recs _) ?_
    rw [mem_bucket]
    exact ⟨hphlt, hgn, rfl⟩
  · intro q hq hne
    have hq2 : q < ((aggregate hd recs).global_id).length := hq
    rw [phaseWeightsAt, getD_map_get _ _ _ hq2]
    have hbg : (aggregate hd recs).global_id.get ⟨q, hq2⟩
        = (buildGlobalId recs).getD q [] := (getD_eq_get _ _ _ hq2).symm
    rw [hbg]
    refine sum_map_getD_zero _ _ g (fun x hx => hzero x hx) ?_
    intro hmem
    obtain ⟨-, -, hphase⟩ := (mem_bucket recs q g).mp hmem
    exact hne hphase.symm

/-- Witness for the C6 theorem: in the single-grain example the grain weight
at the grain's global id is 1 and the phase weight at its phase is 1. -/
theorem singleGrain_onehot_witness :
    (grainWeightsAt s1 0 0 0).getD 0 0 = 1 ∧
      (phaseWeightsAt s1 (grainWeightsAt s1 0 0 0)).getD 1 0 = 1 := by
  have hres : ijkFromPoint s1 p0 = .ok (0, 0, 0) := by
    norm_num [ijkFromPoint, axisIndex, clampIdx, s1, aggregate, spacing, hd0, p0,
      Bind.bind, Except.bind, Pure.pure, Except.pure]
  obtain ⟨g, hg, h1, h2, h3, h4⟩ :=
    singleGrain_onehot hd0 recs1 s1 rfl p0 0 0 0 7 hres (by decide)
  have hg0 : g = 0 := by
    have hl : List.lookup 7 s1.global_id_map = some 0 := by decide
    rw [hl] at hg
    exact (Option.some.injEq _ _ ▸ hg).symm
  subst hg0
  have hph : (getAvgData s1 0).phase = 1 := by decide
  rw [hph] at h3
  exact ⟨h1, h3⟩

/-- C7: a load whose record count disagrees with the declared voxel count
`nx*ny*nz` fails with a format error, publishes no reader state at all, and
a subsequent query against the load result fails with that error instead of
returning stale or default data. -/
theorem readFile_count_mismatch (hd : EBSDHeader) (recs : List EBSDPointData)
    (hvalid : ¬(hd.nx = 0 ∨ hd.ny = 0 ∨ hd.nz = 0 ∨ hd.maxx < hd.minx ∨
        hd.maxy < hd.miny ∨ hd.maxz < hd.minz))
    (hmis : recs.length ≠ hd.nx * hd.ny * hd.nz) :
    readFile hd recs = .error .formatError ∧
      (∀ s, readFile hd recs ≠ .ok s) ∧
      queryGrainNum (readFile hd recs) = .error .formatError := by
  have h1 : readFile hd recs = .error .formatError := by
    rw [readFile, if_neg hvalid, if_pos hmis]
  refine ⟨h1, ?_, ?_⟩
  · intro s hs
    rw [h1] at hs
    exact Except.noConfusion hs
  · rw [queryGrainNum, h1]
    rfl

/-- Witness for the C7 theorem: loading three records into the 2x2x1 grid is
a format error and so is the subsequent grain-count query. -/
theorem readFile_count_mismatch_witness :
    readFile hd0 recs2 = .error .formatError ∧
      queryGrainNum (readFile hd0 recs2) = .error .formatError :=
  have T := readFile_count_mismatch hd0 recs2
    (by norm_num [hd0]) (by decide)
  ⟨T.1, T.2.2⟩

end EBSD
